import Mathlib

/-!
# Verification of the PixelLock core (`main.go`)

A shallow embedding of the data-transformation core of the PixelLock tool:

* the LSB steganography codec (`hideMessage` / `revealMessage`),
* the AES-256-GCM authenticated encryption wrapper (`Encrypt` / `Decrypt`),
* the directory batch walkers (`encryptDirectory` / `decryptDirectory`).

Pure functions of the Go source are translated into Lean functions; machine
integers (`uint8`, `uint32`) become `Nat` with explicit masking/`% 2^w` where
the source relies on wrap-around; fallible code returns `Option`/`Except`.

Conventions:

* A Go byte string is a `List Nat` whose entries are `< 256`.
* A `PixelBuffer` (the RGBA buffer obtained by `draw.Draw` into a fresh
  `image.NewRGBA` in the source) is modelled as the row-major list of its
  `width*height` pixels; the source's nested `for y / for x` loops traverse
  exactly this list in order.
-/

set_option maxRecDepth 10000

namespace PixelLock

/-! ## Steganography: pixel model

Source: `hideMessage` / `revealMessage` in `main.go`.  Both convert the
decoded image to `image.RGBA` (8-bit channels) and then work pixel by pixel.
`rgbaImg.At(x, y).RGBA()` returns each 8-bit channel `c` widened to 16 bits
as `c | c<<8 = c * 0x101 = c * 257` (Go `color.RGBA.RGBA()`); the source does
its bit twiddling on those widened values and narrows back with `uint8(...)`
(truncation mod 256).  We keep that widening explicit (`rgba16`). -/

/-- One RGBA pixel of the converted `image.RGBA` buffer: four 8-bit channels. -/
structure Pixel where
  r : Nat
  g : Nat
  b : Nat
  a : Nat
deriving DecidableEq, Repr

/-- The zero pixel, used as the `getD` default. -/
def Pixel.zero : Pixel := ⟨0, 0, 0, 0⟩

/-- All four channels are 8-bit bytes (true of every `image.RGBA` pixel). -/
def Pixel.Valid (p : Pixel) : Prop :=
  p.r < 256 ∧ p.g < 256 ∧ p.b < 256 ∧ p.a < 256

instance (p : Pixel) : Decidable p.Valid := by
  unfold Pixel.Valid; infer_instance

/-- Go `color.RGBA.RGBA()` channel widening: `c | c<<8 = c * 257`. -/
def rgba16 (c : Nat) : Nat := c * 257

/-- One channel update of `hideMessage`:
`uint8((rgba16 c &^ 1) | bit)` — clear the least significant bit of the
widened channel (`&^ 1` is AND NOT on `uint32`, i.e. `&&& 0xFFFFFFFE`),
set it to `bit`, narrow back to a byte. -/
def embedChannel (c bit : Nat) : Nat :=
  ((rgba16 c &&& 0xFFFFFFFE) ||| bit) % 256

/-- The per-pixel update of `hideMessage` for message byte `m`:
```
r = (r &^ 1) | uint32(m>>7)
g = (g &^ 1) | uint32((m>>6)&1)
b = (b &^ 1) | uint32((m>>5)&1)
a = (a &^ 1) | uint32((m>>4)&1)
rgbaImg.SetRGBA(x, y, color.RGBA{uint8(r), uint8(g), uint8(b), uint8(a)})
``` -/
def embedPixel (p : Pixel) (m : Nat) : Pixel :=
  ⟨embedChannel p.r (m >>> 7),
   embedChannel p.g ((m >>> 6) &&& 1),
   embedChannel p.b ((m >>> 5) &&& 1),
   embedChannel p.a ((m >>> 4) &&& 1)⟩

/-- The embedding loop of `hideMessage`: the source iterates over all pixels
in row-major order with `messageIndex` advancing exactly when a byte was
embedded; since a byte is embedded on every iteration while
`messageIndex < len(message)`, pixel `i` receives message byte `i` while
bytes remain, and the remaining pixels are returned unchanged. -/
def hideLoop : List Pixel → List Nat → List Pixel
  | [], _ => []
  | p :: ps, [] => p :: ps
  | p :: ps, m :: ms => embedPixel p m :: hideLoop ps ms

/-- `hideMessage` on the pixel buffer: the source first appends the NUL
terminator (`message += "\x00"`) and then runs the embedding loop.  There is
no capacity check: if the buffer has fewer pixels than message bytes, the
excess bytes are silently dropped (the loop guard `messageIndex <
len(message)` simply never fires for them), and the stego image is written
out regardless. -/
def hideMessage (ps : List Pixel) (msg : List Nat) : List Pixel :=
  hideLoop ps (msg ++ [0])

/-- One byte reconstruction of `revealMessage`:
`uint8(((r&1)<<7) | ((g&1)<<6) | ((b&1)<<5) | ((a&1)<<4))` on the widened
channel values. -/
def extractByte (p : Pixel) : Nat :=
  (((rgba16 p.r &&& 1) <<< 7) ||| ((rgba16 p.g &&& 1) <<< 6) |||
      ((rgba16 p.b &&& 1) <<< 5) ||| ((rgba16 p.a &&& 1) <<< 4)) % 256

/-- Go `strings.Split(s, "\x00")[0]`: the bytes before the first NUL byte;
the whole string when no NUL occurs. -/
def takeUntilNul : List Nat → List Nat
  | [] => []
  | b :: bs => if b = 0 then [] else b :: takeUntilNul bs

/-- `revealMessage` on the pixel buffer: reconstruct one byte per pixel over
the whole image in row-major order, then keep the bytes before the first NUL
(`strings.Split(message, "\x00")[0]`).  No error path exists. -/
def revealMessage (ps : List Pixel) : List Nat :=
  takeUntilNul (ps.map extractByte)

/-! ### Arithmetic readings of the bit-level channel operations -/

/-- Bounded bit-twiddling fact behind `embedChannel_eq`. -/
theorem embedChannel_arith : ∀ c < 256, ∀ b < 2,
    ((c * 257 &&& 0xFFFFFFFE) ||| b) % 256 = 2 * (c / 2) + b := by
  decide

/-- For byte channels and a one-bit value, `embedChannel` keeps the high
seven bits of the channel and replaces the least significant bit. -/
theorem embedChannel_eq {c b : Nat} (hc : c < 256) (hb : b < 2) :
    embedChannel c b = 2 * (c / 2) + b := by
  simpa [embedChannel, rgba16] using embedChannel_arith c hc b hb

/-- The widened channel has the same least significant bit as the byte. -/
theorem rgba16_and_one (c : Nat) : rgba16 c &&& 1 = c % 2 := by
  rw [rgba16, Nat.and_one_is_mod]
  omega

/-- Bounded bit-twiddling fact behind `extractByte_eq`. -/
theorem extractByte_arith : ∀ a < 2, ∀ b < 2, ∀ c < 2, ∀ d < 2,
    ((a <<< 7) ||| (b <<< 6) ||| (c <<< 5) ||| (d <<< 4)) % 256 =
      a * 128 + b * 64 + c * 32 + d * 16 := by
  decide

/-- Arithmetic reading of `extractByte`:
`(R_lsb<<7) | (G_lsb<<6) | (B_lsb<<5) | (A_lsb<<4)` as plain arithmetic. -/
theorem extractByte_eq (p : Pixel) :
    extractByte p =
      p.r % 2 * 128 + p.g % 2 * 64 + p.b % 2 * 32 + p.a % 2 * 16 := by
  have h := extractByte_arith (p.r % 2) (Nat.mod_lt _ (by omega))
    (p.g % 2) (Nat.mod_lt _ (by omega)) (p.b % 2) (Nat.mod_lt _ (by omega))
    (p.a % 2) (Nat.mod_lt _ (by omega))
  rw [extractByte, rgba16_and_one, rgba16_and_one, rgba16_and_one,
    rgba16_and_one, h]

/-! ### Structure of the embedding loop -/

/-- The embedding loop never changes the number of pixels. -/
theorem hideLoop_length (ps : List Pixel) (ms : List Nat) :
    (hideLoop ps ms).length = ps.length := by
  induction ps generalizing ms with
  | nil => cases ms <;> rfl
  | cons p ps ih => cases ms with
    | nil => rfl
    | cons m ms => simpa [hideLoop] using ih ms

/-- Message bytes beyond the pixel count are never read by the loop. -/
theorem hideLoop_take (ps : List Pixel) (ms : List Nat) :
    hideLoop ps ms = hideLoop ps (ms.take ps.length) := by
  induction ps generalizing ms with
  | nil => cases ms <;> rfl
  | cons p ps ih => cases ms with
    | nil => rfl
    | cons m ms => simp [hideLoop, ih ms]

/-- Pointwise description of the embedding loop: pixel `i` is embedded with
message byte `i` while both exist; all other positions are untouched. -/
theorem hideLoop_getD (ps : List Pixel) (ms : List Nat) (i : Nat) :
    (hideLoop ps ms).getD i Pixel.zero =
      if i < ps.length ∧ i < ms.length then
        embedPixel (ps.getD i Pixel.zero) (ms.getD i 0)
      else ps.getD i Pixel.zero := by
  induction ps generalizing ms i with
  | nil => cases ms <;> simp [hideLoop]
  | cons p ps ih =>
    cases ms with
    | nil => simp [hideLoop]
    | cons m ms =>
      cases i with
      | zero => simp [hideLoop]
      | succ j =>
        simp only [hideLoop, List.getD_cons_succ, List.length_cons, ih ms j]
        by_cases h₁ : j < ps.length <;> by_cases h₂ : j < ms.length <;>
          simp [h₁, h₂, Nat.succ_lt_succ_iff]

/-- Arithmetic reading of `embedPixel` for byte-valued channels and a
byte-valued message byte: the least significant bit of each channel becomes
the corresponding message bit, the high seven bits are kept. -/
theorem embedPixel_eq {p : Pixel} {m : Nat} (hp : p.Valid) (hm : m < 256) :
    embedPixel p m =
      ⟨2 * (p.r / 2) + m / 128 % 2, 2 * (p.g / 2) + m / 64 % 2,
       2 * (p.b / 2) + m / 32 % 2, 2 * (p.a / 2) + m / 16 % 2⟩ := by
  obtain ⟨hr, hg, hb, ha⟩ := hp
  have h7 : m >>> 7 = m / 128 % 2 := by
    rw [Nat.shiftRight_eq_div_pow]; omega
  have h6 : (m >>> 6) &&& 1 = m / 64 % 2 := by
    rw [Nat.and_one_is_mod, Nat.shiftRight_eq_div_pow]
  have h5 : (m >>> 5) &&& 1 = m / 32 % 2 := by
    rw [Nat.and_one_is_mod, Nat.shiftRight_eq_div_pow]
  have h4 : (m >>> 4) &&& 1 = m / 16 % 2 := by
    rw [Nat.and_one_is_mod, Nat.shiftRight_eq_div_pow]
  rw [embedPixel, h7, h6, h5, h4,
    embedChannel_eq hr (Nat.mod_lt _ (by omega)),
    embedChannel_eq hg (Nat.mod_lt _ (by omega)),
    embedChannel_eq hb (Nat.mod_lt _ (by omega)),
    embedChannel_eq ha (Nat.mod_lt _ (by omega))]

/-! ### Structure of the reveal pass -/

/-- `takeUntilNul` is `takeWhile (· != 0)`: stop at the first NUL byte,
return everything when no NUL occurs. -/
theorem takeUntilNul_eq_takeWhile (l : List Nat) :
    takeUntilNul l = l.takeWhile (fun b => b != 0) := by
  induction l with
  | nil => rfl
  | cons b bs ih =>
    by_cases h : b = 0 <;> simp [takeUntilNul, h, ih]

/-- A byte surviving the NUL truncation came from the decoded sequence and
is itself nonzero. -/
theorem mem_takeUntilNul {b : Nat} {l : List Nat} (h : b ∈ takeUntilNul l) :
    b ∈ l ∧ b ≠ 0 := by
  induction l with
  | nil => simp [takeUntilNul] at h
  | cons c cs ih =>
    by_cases hc : c = 0
    · simp [takeUntilNul, hc] at h
    · rw [takeUntilNul, if_neg hc, List.mem_cons] at h
      rcases h with h | h
      · exact ⟨by simp [h], h ▸ hc⟩
      · exact ⟨List.mem_cons_of_mem _ (ih h).1, (ih h).2⟩

/-- Elements of `takeWhile (· != 0)` are the whole list when no NUL byte
occurs in it. -/
theorem takeWhile_ne_zero_eq (l : List Nat) (h : ∀ b ∈ l, b ≠ 0) :
    l.takeWhile (fun b => b != 0) = l := by
  induction l with
  | nil => rfl
  | cons b bs ih =>
    have hb : b ≠ 0 := h b (by simp)
    rw [List.takeWhile_cons, if_pos (by simpa using hb),
      ih fun x hx => h x (List.mem_cons_of_mem _ hx)]

/-- An element read by `getD` below the length is a member of the list. -/
theorem getD_mem_of_lt {α : Type} (l : List α) (d : α) (i : Nat)
    (h : i < l.length) : l.getD i d ∈ l := by
  induction l generalizing i with
  | nil => simp at h
  | cons x xs ih =>
    cases i with
    | zero => simp
    | succ j => exact List.mem_cons_of_mem _ (ih j (by simpa using h))

/-! ## Claim theorems: steganography -/

/-- Claim C1 (code evaluation at the failing input): hiding the one-byte
message `"A"` (0x41) in a 2-pixel all-white buffer and revealing it returns
the single byte 0x40 (`"@"`), not `"A"`: `hideMessage` stores only bits
7,6,5,4 of each byte in the pixel's channel LSBs and `revealMessage` maps
those LSBs back to bit positions 7,6,5,4, so the low nibble of every message
byte is lost and the stego round-trip of the spec fails. -/
theorem claim1_reveal_hide_drops_low_nibble :
    revealMessage
        (hideMessage [Pixel.mk 255 255 255 255, Pixel.mk 255 255 255 255]
          [65]) = [64] := by
  decide

/-- Claim C2 (counterexample): on a 1-pixel buffer (capacity 1 byte) and the
2-byte message `"AB"`, whose NUL-terminated form needs 3 pixels, `hideMessage`
does not fail: it returns an output buffer (embedding only `"A"` and silently
dropping `"B"` and the terminator).  The source contains no capacity check
and no `InsufficientCapacity` error. -/
theorem claim2_hide_accepts_overfull_message :
    hideMessage [Pixel.mk 255 255 255 255] [65, 66] =
      [Pixel.mk 254 255 254 254] := by
  decide

/-- Claim C2 (amended): `hideMessage` never fails on capacity.  For every
pixel buffer and message it returns a buffer of exactly the input pixel
count, equal to embedding just the first `width*height` bytes of the
NUL-terminated message; excess message bytes are silently dropped. -/
theorem claim2_amended_hide_never_fails (ps : List Pixel) (msg : List Nat) :
    (hideMessage ps msg).length = ps.length ∧
    hideMessage ps msg = hideLoop ps ((msg ++ [0]).take ps.length) :=
  ⟨hideLoop_length ps (msg ++ [0]), hideLoop_take ps (msg ++ [0])⟩

/-- Claim C4: for every byte index `i < len(M)+1` of the NUL-terminated
message (with enough pixels), `hideMessage` rewrites the `i`-th pixel in
row-major order so that the least significant bits of R, G, B, A become bits
7, 6, 5, 4 of message byte `i` while all higher channel bits are preserved
(channel `c` becomes `2*(c/2) + bit`), and every pixel at row-major index
`≥ len(M)+1` is left unmodified. -/
theorem claim4_hide_bit_placement (ps : List Pixel) (msg : List Nat) (i : Nat)
    (hpix : ∀ p ∈ ps, p.Valid) (hmsg : ∀ m ∈ msg, m < 256)
    (hi : i < ps.length) :
    (i < msg.length + 1 →
      (hideMessage ps msg).getD i Pixel.zero =
        Pixel.mk
          (2 * ((ps.getD i Pixel.zero).r / 2) + (msg ++ [0]).getD i 0 / 128 % 2)
          (2 * ((ps.getD i Pixel.zero).g / 2) + (msg ++ [0]).getD i 0 / 64 % 2)
          (2 * ((ps.getD i Pixel.zero).b / 2) + (msg ++ [0]).getD i 0 / 32 % 2)
          (2 * ((ps.getD i Pixel.zero).a / 2) + (msg ++ [0]).getD i 0 / 16 % 2)) ∧
    (msg.length + 1 ≤ i →
      (hideMessage ps msg).getD i Pixel.zero = ps.getD i Pixel.zero) := by
  constructor
  · intro hlt
    rw [hideMessage, hideLoop_getD,
      if_pos ⟨hi, by simpa using hlt⟩]
    refine embedPixel_eq (hpix _ (getD_mem_of_lt ps Pixel.zero i hi)) ?_
    by_cases hm : i < msg.length
    · have : (msg ++ [0]).getD i 0 = msg.getD i 0 := by
        rw [List.getD_append _ _ _ _ hm]
      rw [this]
      exact hmsg _ (getD_mem_of_lt msg 0 i hm)
    · have hieq : i = msg.length := by omega
      subst hieq
      simp
  · intro hge
    rw [hideMessage, hideLoop_getD, if_neg]
    rintro ⟨-, h2⟩
    rw [List.length_append, List.length_cons, List.length_nil] at h2
    omega

/-- Witness for C4 at a concrete input: hiding `"A"` in a 2-pixel white
buffer turns pixel 0 into channel values 254, 255, 254, 254 (LSBs 0,1,0,0 =
bits 7,6,5,4 of 0x41). -/
theorem claim4_witness :
    (hideMessage [Pixel.mk 255 255 255 255, Pixel.mk 255 255 255 255]
        [65]).getD 0 Pixel.zero = Pixel.mk 254 255 254 254 :=
  ((claim4_hide_bit_placement
      [Pixel.mk 255 255 255 255, Pixel.mk 255 255 255 255] [65] 0
      (by decide) (by decide) (by decide)).1 (by decide)).trans (by decide)

/-- Claim C5: `revealMessage` reconstructs one byte per pixel in row-major
order as `R_lsb*128 + G_lsb*64 + B_lsb*32 + A_lsb*16` over the entire image
and returns that sequence truncated at the first NUL byte; when no
reconstructed byte is NUL, the entire image's decoded byte sequence is
returned unchanged (there is no error path). -/
theorem claim5_reveal_reconstruction (ps : List Pixel) :
    revealMessage ps =
      (ps.map fun p =>
        p.r % 2 * 128 + p.g % 2 * 64 + p.b % 2 * 32 + p.a % 2 * 16).takeWhile
        (fun b => b != 0) ∧
    ((∀ p ∈ ps,
        p.r % 2 * 128 + p.g % 2 * 64 + p.b % 2 * 32 + p.a % 2 * 16 ≠ 0) →
      revealMessage ps =
        ps.map fun p =>
          p.r % 2 * 128 + p.g % 2 * 64 + p.b % 2 * 32 + p.a % 2 * 16) := by
  have hmap : ps.map extractByte =
      ps.map fun p =>
        p.r % 2 * 128 + p.g % 2 * 64 + p.b % 2 * 32 + p.a % 2 * 16 :=
    List.map_congr_left fun p _ => extractByte_eq p
  constructor
  · rw [revealMessage, takeUntilNul_eq_takeWhile, hmap]
  · intro h
    rw [revealMessage, takeUntilNul_eq_takeWhile, hmap,
      takeWhile_ne_zero_eq]
    intro b hb
    obtain ⟨p, hp, rfl⟩ := List.mem_map.mp hb
    exact h p hp

/-- Witness for C5 at a concrete input: a single pixel with all channel LSBs
set decodes to the byte 240 and, being NUL-free, is returned whole. -/
theorem claim5_witness :
    revealMessage [Pixel.mk 1 1 1 1] = [240] :=
  ((claim5_reveal_reconstruction [Pixel.mk 1 1 1 1]).2 (by decide)).trans
    (by decide)

/-- Claim C10: every byte of the string returned by `revealMessage` has its
low 4 bits equal to zero (it is a multiple of 16), and the returned string
contains no NUL byte. -/
theorem claim10_reveal_nibble_invariant (ps : List Pixel) :
    ∀ b ∈ revealMessage ps, b % 16 = 0 ∧ b ≠ 0 := by
  intro b hb
  obtain ⟨hmem, hne⟩ := mem_takeUntilNul hb
  refine ⟨?_, hne⟩
  obtain ⟨p, hp, rfl⟩ := List.mem_map.mp hmem
  rw [extractByte_eq]
  omega

/-- Witness for C10 at a concrete input: the byte 64 revealed from a buffer
with only the green LSB set is a multiple of 16 and nonzero. -/
theorem claim10_witness : 64 % 16 = 0 ∧ 64 ≠ 0 :=
  claim10_reveal_nibble_invariant [Pixel.mk 0 1 0 0] 64 (by decide)

/-! ## AES-256-GCM

Source: `Encrypt` / `Decrypt` in `main.go`.  The wrappers delegate to Go's
`crypto/aes` and `crypto/cipher.NewGCM`, i.e. to AES with a 16/24/32-byte
key and NIST SP 800-38D GCM with a 12-byte nonce and 16-byte tag.  The
cipher and mode are embedded here in full (FIPS-197 Rijndael and the GCM
counter mode / GHASH construction); the fresh random nonce drawn by
`Encrypt` from `crypto/rand` is modelled as an explicit 12-byte input.
Bytes are `Nat`s `< 256`; 128-bit GHASH field elements are `Nat`s in
big-endian reading. -/

/-- Big-endian byte list to natural number. -/
def beNat (l : List Nat) : Nat := l.foldl (fun acc b => acc * 256 + b) 0

/-- The `w` big-endian bytes of `n` (most significant first). -/
def natToBytesBE (w n : Nat) : List Nat :=
  (List.range w).map fun i => n / 256 ^ (w - 1 - i) % 256

/-- Multiplication by `x` in GF(2^8) modulo the AES polynomial 0x11b. -/
def xtime (b : Nat) : Nat :=
  if b &&& 0x80 = 0x80 then ((b <<< 1) ^^^ 0x1b) &&& 0xFF else (b <<< 1) &&& 0xFF

/-- The AES S-box (FIPS-197 figure 7). -/
def sbox : List Nat :=
  [0x63, 0x7c, 0x77, 0x7b, 0xf2, 0x6b, 0x6f, 0xc5, 0x30, 0x01, 0x67, 0x2b,
   0xfe, 0xd7, 0xab, 0x76, 0xca, 0x82, 0xc9, 0x7d, 0xfa, 0x59, 0x47, 0xf0,
   0xad, 0xd4, 0xa2, 0xaf, 0x9c, 0xa4, 0x72, 0xc0, 0xb7, 0xfd, 0x93, 0x26,
   0x36, 0x3f, 0xf7, 0xcc, 0x34, 0xa5, 0xe5, 0xf1, 0x71, 0xd8, 0x31, 0x15,
   0x04, 0xc7, 0x23, 0xc3, 0x18, 0x96, 0x05, 0x9a, 0x07, 0x12, 0x80, 0xe2,
   0xeb, 0x27, 0xb2, 0x75, 0x09, 0x83, 0x2c, 0x1a, 0x1b, 0x6e, 0x5a, 0xa0,
   0x52, 0x3b, 0xd6, 0xb3, 0x29, 0xe3, 0x2f, 0x84, 0x53, 0xd1, 0x00, 0xed,
   0x20, 0xfc, 0xb1, 0x5b, 0x6a, 0xcb, 0xbe, 0x39, 0x4a, 0x4c, 0x58, 0xcf,
   0xd0, 0xef, 0xaa, 0xfb, 0x43, 0x4d, 0x33, 0x85, 0x45, 0xf9, 0x02, 0x7f,
   0x50, 0x3c, 0x9f, 0xa8, 0x51, 0xa3, 0x40, 0x8f, 0x92, 0x9d, 0x38, 0xf5,
   0xbc, 0xb6, 0xda, 0x21, 0x10, 0xff, 0xf3, 0xd2, 0xcd, 0x0c, 0x13, 0xec,
   0x5f, 0x97, 0x44, 0x17, 0xc4, 0xa7, 0x7e, 0x3d, 0x64, 0x5d, 0x19, 0x73,
   0x60, 0x81, 0x4f, 0xdc, 0x22, 0x2a, 0x90, 0x88, 0x46, 0xee, 0xb8, 0x14,
   0xde, 0x5e, 0x0b, 0xdb, 0xe0, 0x32, 0x3a, 0x0a, 0x49, 0x06, 0x24, 0x5c,
   0xc2, 0xd3, 0xac, 0x62, 0x91, 0x95, 0xe4, 0x79, 0xe7, 0xc8, 0x37, 0x6d,
   0x8d, 0xd5, 0x4e, 0xa9, 0x6c, 0x56, 0xf4, 0xea, 0x65, 0x7a, 0xae, 0x08,
   0xba, 0x78, 0x25, 0x2e, 0x1c, 0xa6, 0xb4, 0xc6, 0xe8, 0xdd, 0x74, 0x1f,
   0x4b, 0xbd, 0x8b, 0x8a, 0x70, 0x3e, 0xb5, 0x66, 0x48, 0x03, 0xf6, 0x0e,
   0x61, 0x35, 0x57, 0xb9, 0x86, 0xc1, 0x1d, 0x9e, 0xe1, 0xf8, 0x98, 0x11,
   0x69, 0xd9, 0x8e, 0x94, 0x9b, 0x1e, 0x87, 0xe9, 0xce, 0x55, 0x28, 0xdf,
   0x8c, 0xa1, 0x89, 0x0d, 0xbf, 0xe6, 0x42, 0x68, 0x41, 0x99, 0x2d, 0x0f,
   0xb0, 0x54, 0xbb, 0x16]

/-- S-box substitution of one byte. -/
def subByte (b : Nat) : Nat := sbox.getD b 0

/-- XOR of two 4-byte words. -/
def xorWord (a b : List Nat) : List Nat :=
  (List.range 4).map fun i => a.getD i 0 ^^^ b.getD i 0

/-- Cyclic left rotation of a 4-byte word (FIPS-197 `RotWord`). -/
def rotWord (w : List Nat) : List Nat :=
  [w.getD 1 0, w.getD 2 0, w.getD 3 0, w.getD 0 0]

/-- S-box substitution on each byte of a word (FIPS-197 `SubWord`). -/
def subWord (w : List Nat) : List Nat := w.map subByte

/-- Round-constant byte: `rconByte j` is the first byte of FIPS-197
`Rcon[j+1]`, i.e. `x^j` in GF(2^8). -/
def rconByte : Nat → Nat
  | 0 => 1
  | j + 1 => xtime (rconByte j)

/-- Rijndael key expansion (FIPS-197 §5.2), generic in the key size:
`Nk = len(key)/4` words of key, `Nr = Nk + 6` rounds, producing
`4*(Nr+1)` round-key words (columns). -/
def expandKey (key : List Nat) : List (List Nat) :=
  (List.range (4 * (key.length / 4 + 6 + 1))).foldl
    (fun ws i =>
      if i < key.length / 4 then
        ws ++ [[key.getD (4 * i) 0, key.getD (4 * i + 1) 0,
                key.getD (4 * i + 2) 0, key.getD (4 * i + 3) 0]]
      else
        ws ++ [xorWord (ws.getD (i - key.length / 4) [])
          (if i % (key.length / 4) = 0 then
            xorWord (subWord (rotWord (ws.getD (i - 1) [])))
              [rconByte (i / (key.length / 4) - 1), 0, 0, 0]
          else if 6 < key.length / 4 ∧ i % (key.length / 4) = 4 then
            subWord (ws.getD (i - 1) [])
          else ws.getD (i - 1) [])])
    []

/-- The 16 state bytes of round key `n`, flat with index `i = r + 4c`
(state byte `s[r][c]` is word `4n+c`, byte `r`). -/
def roundKeyFlat (ws : List (List Nat)) (n : Nat) : List Nat :=
  (List.range 16).map fun i => (ws.getD (4 * n + i / 4) []).getD (i % 4) 0

/-- FIPS-197 `AddRoundKey` on the flat 16-byte state. -/
def addRoundKey (s rk : List Nat) : List Nat :=
  (List.range 16).map fun i => s.getD i 0 ^^^ rk.getD i 0

/-- FIPS-197 `SubBytes` on the flat 16-byte state. -/
def subBytesOp (s : List Nat) : List Nat :=
  (List.range 16).map fun i => subByte (s.getD i 0)

/-- FIPS-197 `ShiftRows`: row `r` is rotated left by `r`
(`s'[r][c] = s[r][(c + r) % 4]`, flat index `i = r + 4c`). -/
def shiftRowsOp (s : List Nat) : List Nat :=
  (List.range 16).map fun i => s.getD (i % 4 + 4 * ((i / 4 + i % 4) % 4)) 0

/-- FIPS-197 `MixColumns` on one 4-byte column. -/
def mixCol (c : List Nat) : List Nat :=
  [xtime (c.getD 0 0) ^^^ (xtime (c.getD 1 0) ^^^ c.getD 1 0) ^^^ c.getD 2 0 ^^^
      c.getD 3 0,
   c.getD 0 0 ^^^ xtime (c.getD 1 0) ^^^ (xtime (c.getD 2 0) ^^^ c.getD 2 0) ^^^
      c.getD 3 0,
   c.getD 0 0 ^^^ c.getD 1 0 ^^^ xtime (c.getD 2 0) ^^^
      (xtime (c.getD 3 0) ^^^ c.getD 3 0),
   (xtime (c.getD 0 0) ^^^ c.getD 0 0) ^^^ c.getD 1 0 ^^^ c.getD 2 0 ^^^
      xtime (c.getD 3 0)]

/-- FIPS-197 `MixColumns` on the flat 16-byte state. -/
def mixColumnsOp (s : List Nat) : List Nat :=
  (List.range 16).map fun i =>
    (mixCol [s.getD (4 * (i / 4)) 0, s.getD (4 * (i / 4) + 1) 0,
      s.getD (4 * (i / 4) + 2) 0, s.getD (4 * (i / 4) + 3) 0]).getD (i % 4) 0

/-- The AES block cipher forward direction (FIPS-197 §5.1), generic in the
key size as Go's `crypto/aes` is: `Nr = len(key)/4 + 6` rounds.  This is
the `cipher.Block.Encrypt` obtained from `aes.NewCipher(key)`. -/
def aesEncryptBlock (key block : List Nat) : List Nat :=
  addRoundKey
    (shiftRowsOp (subBytesOp
      ((List.range (key.length / 4 + 6 - 1)).foldl
        (fun s n =>
          addRoundKey (mixColumnsOp (shiftRowsOp (subBytesOp s)))
            (roundKeyFlat (expandKey key) (n + 1)))
        (addRoundKey block (roundKeyFlat (expandKey key) 0)))))
    (roundKeyFlat (expandKey key) (key.length / 4 + 6))

/-- The AES block function always produces a 16-byte block. -/
theorem aesEncryptBlock_length (key block : List Nat) :
    (aesEncryptBlock key block).length = 16 := by
  simp [aesEncryptBlock, addRoundKey]

/-! ### GCM (NIST SP 800-38D, as implemented by `crypto/cipher.NewGCM`):
12-byte nonce, 16-byte tag, no associated data (the source passes `nil`). -/

/-- The GHASH reduction constant `R = 0xe1 << 120`. -/
def gcmR : Nat := 0xe1000000000000000000000000000000

/-- Multiplication in GF(2^128) with GCM's reflected bit order: 128 steps of
conditional add (`z ^^^ v`) and shift-with-reduction, bit `127-i` of `x`
selecting step `i`. -/
def gfMul (x y : Nat) : Nat :=
  ((List.range 128).foldl
    (fun zv i =>
      (if (x >>> (127 - i)) &&& 1 = 1 then zv.1 ^^^ zv.2 else zv.1,
       if zv.2 &&& 1 = 1 then (zv.2 >>> 1) ^^^ gcmR else zv.2 >>> 1))
    (0, y)).1

/-- GHASH accumulation over the 16-byte blocks of `data`:
`y ← (y ⊕ block) • h`. -/
def ghashAux (h y : Nat) (data : List Nat) : Nat :=
  if hne : data = [] then y
  else ghashAux h (gfMul (y ^^^ beNat (data.take 16)) h) (data.drop 16)
termination_by data.length
decreasing_by
  rw [List.length_drop]
  have : data.length ≠ 0 := fun h0 => hne (List.eq_nil_of_length_eq_zero h0)
  omega

/-- Zero padding to a whole number of 16-byte blocks. -/
def padTo16 (l : List Nat) : List Nat :=
  l ++ List.replicate ((16 - l.length % 16) % 16) 0

/-- The final GHASH block: bit lengths of the associated data and of the
ciphertext as two big-endian `uint64`s. -/
def lengthsBlock (aLen cLen : Nat) : List Nat :=
  natToBytesBE 8 (8 * aLen % 2 ^ 64) ++ natToBytesBE 8 (8 * cLen % 2 ^ 64)

/-- The pre-counter block for a standard 12-byte nonce:
`J0 = nonce || 0x00000001`. -/
def gcmJ0 (nonce : List Nat) : List Nat := nonce ++ [0, 0, 0, 1]

/-- `inc32`: increment the last four bytes of the counter block as a
big-endian `uint32`, wrapping mod `2^32`. -/
def inc32 (b : List Nat) : List Nat :=
  b.take 12 ++ natToBytesBE 4 ((beNat (b.drop 12) + 1) % 2 ^ 32)

/-- `inc32` iterated `n` times. -/
def incN (c : List Nat) : Nat → List Nat
  | 0 => c
  | n + 1 => inc32 (incN c n)

/-- The first `n` bytes of the CTR keystream: block `i` is the AES
encryption of counter `inc32^(i+1)(J0)` (GCM consumes `E_K(J0)` as the tag
mask before the first data block). -/
def keystream (key j0 : List Nat) (n : Nat) : List Nat :=
  (((List.range ((n + 15) / 16)).map fun i =>
      aesEncryptBlock key (incN (inc32 j0) i)).flatten).take n

/-- CTR encryption/decryption (its own inverse): XOR the data with the
keystream derived from `J0`. -/
def ctrCrypt (key j0 data : List Nat) : List Nat :=
  List.zipWith Nat.xor data (keystream key j0 data.length)

/-- The 16-byte GCM authentication tag over ciphertext `ct` (no associated
data): `GHASH_H(pad(ct) || lengths) ⊕ E_K(J0)` with hash key
`H = E_K(0^16)`. -/
def gcmTag (key nonce ct : List Nat) : List Nat :=
  (List.range 16).map fun i =>
    (natToBytesBE 16
        (ghashAux (beNat (aesEncryptBlock key (List.replicate 16 0))) 0
          (padTo16 ct ++ lengthsBlock 0 ct.length))).getD i 0 ^^^
      (aesEncryptBlock key (gcmJ0 nonce)).getD i 0

/-- `aesGCM.Seal(nil, nonce, plaintext, nil)`: the CTR ciphertext with the
16-byte tag appended. -/
def gcmSeal (key nonce pt : List Nat) : List Nat :=
  ctrCrypt key (gcmJ0 nonce) pt ++
    gcmTag key nonce (ctrCrypt key (gcmJ0 nonce) pt)

/-- The error cases of the source `Encrypt`/`Decrypt` wrappers:
`aes.NewCipher` rejecting the key size, the `"ciphertext too short"` check,
and `aesGCM.Open` failing (`"failed to open GCM"`, covering both truncated
bodies and tag mismatch). -/
inductive CryptoError where
  | invalidKeySize
  | ciphertextTooShort
  | openFailed
deriving DecidableEq, Repr

/-- `aes.NewCipher` succeeds exactly for 16-, 24- and 32-byte keys. -/
def keySizeOk (key : List Nat) : Bool :=
  key.length = 16 || key.length = 24 || key.length = 32

/-- Source `Encrypt(key, plaintext)`: create the AES-GCM AEAD (failing on a
bad key size), draw a fresh 12-byte `nonce` (modelled as an explicit input),
and return `aesGCM.Seal(nonce, nonce, plaintext, nil)`, i.e. the nonce with
the sealed ciphertext appended. -/
def Encrypt (key nonce pt : List Nat) : Option (List Nat) :=
  if keySizeOk key then some (nonce ++ gcmSeal key nonce pt) else none

/-- `aesGCM.Open(nil, nonce, body, nil)`: reject bodies shorter than the
16-byte tag, recompute the tag over the ciphertext part and compare, and on
success CTR-decrypt. -/
def gcmOpen (key nonce body : List Nat) : Except CryptoError (List Nat) :=
  if body.length < 16 then .error .openFailed
  else if body.drop (body.length - 16) =
      gcmTag key nonce (body.take (body.length - 16)) then
    .ok (ctrCrypt key (gcmJ0 nonce) (body.take (body.length - 16)))
  else .error .openFailed

/-- Source `Decrypt(key, ciphertext)`: create the AEAD (failing on a bad key
size), fail with `"ciphertext too short"` if the blob is shorter than the
12-byte nonce, split `nonce || body` and open. -/
def Decrypt (key blob : List Nat) : Except CryptoError (List Nat) :=
  if keySizeOk key then
    if blob.length < 12 then .error .ciphertextTooShort
    else gcmOpen key (blob.take 12) (blob.drop 12)
  else .error .invalidKeySize

/-! ### Length lemmas for the GCM pipeline -/

/-- Concatenating `m` AES blocks yields `16*m` bytes. -/
theorem keystreamBlocks_length (key j0 : List Nat) (m : Nat) :
    (((List.range m).map fun i =>
        aesEncryptBlock key (incN (inc32 j0) i)).flatten).length = 16 * m := by
  induction m with
  | zero => rfl
  | succ k ih =>
    rw [List.range_succ, List.map_append, List.flatten_append,
      List.length_append, ih]
    simp [aesEncryptBlock_length]
    omega

/-- The keystream really has the requested number of bytes. -/
theorem keystream_length (key j0 : List Nat) (n : Nat) :
    (keystream key j0 n).length = n := by
  rw [keystream, List.length_take, keystreamBlocks_length]
  omega

/-- CTR encryption preserves the data length. -/
theorem ctrCrypt_length (key j0 data : List Nat) :
    (ctrCrypt key j0 data).length = data.length := by
  rw [ctrCrypt, List.length_zipWith, keystream_length]
  omega

/-- The tag is 16 bytes. -/
theorem gcmTag_length (key nonce ct : List Nat) :
    (gcmTag key nonce ct).length = 16 := by
  simp [gcmTag]

/-- A sealed body is plaintext length plus the 16-byte tag. -/
theorem gcmSeal_length (key nonce pt : List Nat) :
    (gcmSeal key nonce pt).length = pt.length + 16 := by
  rw [gcmSeal, List.length_append, ctrCrypt_length, gcmTag_length]

/-- XOR-ing twice with the same list is the identity. -/
theorem zipWith_xor_cancel :
    ∀ l ks : List Nat, ks.length = l.length →
      List.zipWith Nat.xor (List.zipWith Nat.xor l ks) ks = l
  | [], _, _ => by simp
  | a :: l, k :: ks, h => by
    have h1 : Nat.xor (Nat.xor a k) k = a := Nat.xor_cancel_right k a
    rw [List.zipWith_cons_cons, List.zipWith_cons_cons, h1,
      zipWith_xor_cancel l ks (by simpa using h)]
  | a :: l, [], h => by simp at h

/-- CTR mode is its own inverse for a fixed key and counter start. -/
theorem ctrCrypt_ctrCrypt (key j0 data : List Nat) :
    ctrCrypt key j0 (ctrCrypt key j0 data) = data := by
  rw [ctrCrypt, ctrCrypt_length, ctrCrypt]
  exact zipWith_xor_cancel data _ (keystream_length key j0 data.length)

/-- Opening a sealed body with the same key and nonce recovers the
plaintext: the recomputed tag matches by construction and CTR decryption
cancels. -/
theorem gcmOpen_gcmSeal (key nonce pt : List Nat) :
    gcmOpen key nonce (gcmSeal key nonce pt) = .ok pt := by
  have htag : (gcmTag key nonce (ctrCrypt key (gcmJ0 nonce) pt)).length = 16 :=
    gcmTag_length key nonce _
  have hsub : (ctrCrypt key (gcmJ0 nonce) pt ++
      gcmTag key nonce (ctrCrypt key (gcmJ0 nonce) pt)).length - 16 =
      (ctrCrypt key (gcmJ0 nonce) pt).length := by
    rw [List.length_append, htag]
    omega
  rw [gcmOpen, gcmSeal]
  rw [if_neg (by rw [List.length_append, htag]; omega), hsub,
    List.take_left' rfl, List.drop_left' rfl, if_pos rfl, ctrCrypt_ctrCrypt]

/-! ## Claim theorems: authenticated encryption -/

/-- Claim C3: for every 32-byte key and every byte payload, decrypting the
blob produced by encrypting the payload (with the fresh random nonce
modelled as an explicit 12-byte input) returns exactly the original bytes:
`Decrypt key (Encrypt key nonce pt) = ok pt`. -/
theorem claim3_encrypt_decrypt_roundtrip (key nonce pt : List Nat)
    (hk : key.length = 32) (hn : nonce.length = 12) :
    ∃ blob, Encrypt key nonce pt = some blob ∧
      Decrypt key blob = .ok pt := by
  have hks : keySizeOk key = true := by simp [keySizeOk, hk]
  refine ⟨nonce ++ gcmSeal key nonce pt, by rw [Encrypt, if_pos hks], ?_⟩
  have hlen : (nonce ++ gcmSeal key nonce pt).length = 12 + (pt.length + 16) := by
    rw [List.length_append, gcmSeal_length, hn]
  rw [Decrypt, if_pos hks, if_neg (by omega), List.take_left' hn,
    List.drop_left' hn, gcmOpen_gcmSeal]

/-- Witness for C3 at a concrete input: the all-zero 32-byte key, the
all-zero 12-byte nonce and the plaintext `"AB"` round-trip. -/
theorem claim3_witness :
    ∃ blob,
      Encrypt (List.replicate 32 0) (List.replicate 12 0) [65, 66] =
        some blob ∧
      Decrypt (List.replicate 32 0) blob = .ok [65, 66] :=
  claim3_encrypt_decrypt_roundtrip (List.replicate 32 0)
    (List.replicate 12 0) [65, 66] (by simp) (by simp)

/-- Claim C6: for every 32-byte key and plaintext, `Encrypt` succeeds and
returns a blob of exactly `len(pt) + 12 + 16` bytes whose first 12 bytes are
the nonce used for that call, followed by the CTR ciphertext (of the
plaintext's length) with the 16-byte authentication tag appended. -/
theorem claim6_encrypt_blob_shape (key nonce pt : List Nat)
    (hk : key.length = 32) (hn : nonce.length = 12) :
    ∃ ct tag,
      Encrypt key nonce pt = some ((nonce ++ ct) ++ tag) ∧
      ((nonce ++ ct) ++ tag).length = pt.length + 12 + 16 ∧
      ct.length = pt.length ∧ tag.length = 16 ∧
      ((nonce ++ ct) ++ tag).take 12 = nonce ∧
      tag = gcmTag key nonce ct := by
  have hks : keySizeOk key = true := by simp [keySizeOk, hk]
  refine ⟨ctrCrypt key (gcmJ0 nonce) pt,
    gcmTag key nonce (ctrCrypt key (gcmJ0 nonce) pt), ?_, ?_,
    ctrCrypt_length key _ pt, gcmTag_length key nonce _, ?_, rfl⟩
  · rw [Encrypt, if_pos hks, gcmSeal, List.append_assoc]
  · rw [List.length_append, List.length_append, ctrCrypt_length,
      gcmTag_length, hn]
    omega
  · rw [List.append_assoc]
    exact List.take_left' hn

/-- Witness for C6 at a concrete input: encrypting `"AB"` under the all-zero
key and nonce yields a 30-byte blob of the stated shape. -/
theorem claim6_witness :
    ∃ ct tag,
      Encrypt (List.replicate 32 0) (List.replicate 12 0) [65, 66] =
        some ((List.replicate 12 0 ++ ct) ++ tag) ∧
      ((List.replicate 12 0 ++ ct) ++ tag).length = [65, 66].length + 12 + 16 ∧
      ct.length = [65, 66].length ∧ tag.length = 16 ∧
      ((List.replicate 12 0 ++ ct) ++ tag).take 12 = List.replicate 12 0 ∧
      tag = gcmTag (List.replicate 32 0) (List.replicate 12 0) ct :=
  claim6_encrypt_blob_shape (List.replicate 32 0) (List.replicate 12 0)
    [65, 66] (by simp) (by simp)

/-- Claim C7: for every 32-byte key, `Decrypt` on any blob shorter than
`12 + 16 = 28` bytes returns an error and never a plaintext; for blobs
shorter than 12 bytes the error is the ciphertext-too-short error, raised
by the length guard that precedes the nonce/body split. -/
theorem claim7_decrypt_short_blob (key blob : List Nat)
    (hk : key.length = 32) (hb : blob.length < 28) :
    (∃ e, Decrypt key blob = .error e) ∧
    (blob.length < 12 → Decrypt key blob = .error .ciphertextTooShort) := by
  have hks : keySizeOk key = true := by simp [keySizeOk, hk]
  constructor
  · by_cases h12 : blob.length < 12
    · exact ⟨.ciphertextTooShort, by rw [Decrypt, if_pos hks, if_pos h12]⟩
    · refine ⟨.openFailed, ?_⟩
      rw [Decrypt, if_pos hks, if_neg h12, gcmOpen,
        if_pos (by rw [List.length_drop]; omega)]
  · intro h12
    rw [Decrypt, if_pos hks, if_pos h12]

/-- Witness for C7 at a concrete input: the 3-byte blob `[1, 2, 3]` fails
with the ciphertext-too-short error under the all-zero key. -/
theorem claim7_witness :
    Decrypt (List.replicate 32 0) [1, 2, 3] = .error .ciphertextTooShort :=
  (claim7_decrypt_short_blob (List.replicate 32 0) [1, 2, 3] (by simp)
    (by norm_num)).2 (by norm_num)

/-! ## Directory batch runs

Source: `encryptDirectory` / `decryptDirectory` in `main.go`.  Both call
`filepath.Walk`, which visits entries in order and aborts (propagating the
error) as soon as the callback returns a non-nil error; the callback returns
the walk error it is handed, selects qualifying files (content-sniffed
images for encryption, names with the configured encrypted suffix for
decryption), and for each qualifying file does `wg.Add(1); go { ... }`
running `encryptFile`/`decryptFile` whose error is only logged inside the
goroutine; after the walk, `wg.Wait()` joins everything and the function
returns the walk error (nil when enumeration succeeded).

The walk's visit sequence is modelled as an input list of entries (the
`recursive` flag and `filepath.SkipDir` only shape which entries are
visited); the per-file I/O outcome of `encryptFile`/`decryptFile` is
modelled as an oracle function, since it depends on the filesystem. -/

/-- One entry the walk visits: its base name (`info.Name()`), whether it is
a directory, the result of content sniffing (`isImageFile`), and whether
`filepath.Walk` delivered an error for it. -/
structure WalkEntry where
  name : String
  isDir : Bool
  isImage : Bool
  walkErr : Bool
deriving DecidableEq, Repr

/-- Enumeration failure of the batch: `filepath.Walk` returned an error. -/
inductive WalkError where
  | walkFailed
deriving DecidableEq, Repr

/-- File selection of `encryptDirectory`: regular files that content-sniff
as images. -/
def encSelect (e : WalkEntry) : Bool := !e.isDir && e.isImage

/-- File selection of `decryptDirectory`: regular files whose name carries
the configured encrypted-file suffix (`strings.HasSuffix`). -/
def decSelect (ext : String) (e : WalkEntry) : Bool :=
  !e.isDir && e.name.endsWith ext

/-- The qualifying files for which the walk callback has spawned a goroutine
by the time the walk stops: one per selected entry, in visit order; a walk
error aborts the walk, so later entries spawn nothing. -/
def spawnedFiles (select : WalkEntry → Bool) : List WalkEntry → List WalkEntry
  | [] => []
  | e :: es =>
    if e.walkErr then []
    else (if select e then [e] else []) ++ spawnedFiles select es

/-- Whether `filepath.Walk` completed without an error. -/
def walkOk : List WalkEntry → Bool
  | [] => true
  | e :: es => !e.walkErr && walkOk es

/-- `encryptDirectory`: returns the walk error (success exactly when
enumeration succeeded) and the per-item log — each spawned goroutine runs
`encryptFile` on its own file and records (logs) that file's outcome,
independent of every sibling. -/
def encryptDirectory {ε : Type} (entries : List WalkEntry)
    (encryptFileResult : WalkEntry → Except ε Unit) :
    Except WalkError Unit × List (WalkEntry × Except ε Unit) :=
  ((if walkOk entries then .ok () else .error .walkFailed),
   (spawnedFiles encSelect entries).map fun f => (f, encryptFileResult f))

/-- `decryptDirectory`: same structure as `encryptDirectory` with the
suffix-based file selection and `decryptFile` as the per-item worker. -/
def decryptDirectory {ε : Type} (ext : String) (entries : List WalkEntry)
    (decryptFileResult : WalkEntry → Except ε Unit) :
    Except WalkError Unit × List (WalkEntry × Except ε Unit) :=
  ((if walkOk entries then .ok () else .error .walkFailed),
   (spawnedFiles (decSelect ext) entries).map fun f => (f, decryptFileResult f))

/-- The number of goroutines spawned by a batch walk: `wg.Wait()` is only
reached after the whole walk, and no goroutine is joined before it, so all
of them can be in flight simultaneously — nothing in the source caps this
number below the number of discovered files. -/
def spawnedWorkerCount (select : WalkEntry → Bool)
    (entries : List WalkEntry) : Nat :=
  (spawnedFiles select entries).length

/-- An error-free walk reports success. -/
theorem walkOk_of_no_err (entries : List WalkEntry)
    (h : ∀ e ∈ entries, e.walkErr = false) : walkOk entries = true := by
  induction entries with
  | nil => rfl
  | cons e es ih =>
    rw [walkOk, h e (by simp), ih fun x hx => h x (List.mem_cons_of_mem _ hx)]
    rfl

/-- On an error-free walk, exactly the qualifying files are spawned. -/
theorem spawnedFiles_of_no_err (select : WalkEntry → Bool)
    (entries : List WalkEntry) (h : ∀ e ∈ entries, e.walkErr = false) :
    spawnedFiles select entries = entries.filter select := by
  induction entries with
  | nil => rfl
  | cons e es ih =>
    rw [spawnedFiles, if_neg (by simp [h e (by simp)]),
      ih fun x hx => h x (List.mem_cons_of_mem _ hx), List.filter_cons]
    by_cases hs : select e = true <;> simp [hs]

/-- Three image files, as discovered by an error-free walk. -/
def demoEntries : List WalkEntry :=
  [⟨"a.png", false, true, false⟩, ⟨"b.png", false, true, false⟩,
   ⟨"c.png", false, true, false⟩]

/-! ## Claim theorems: batch runs -/

/-- Claim C8: in a directory batch run (encrypt or decrypt), every
qualifying file gets its own recorded outcome — the outcome list is the map
of the per-file worker over all qualifying files, so one item's failure is
recorded against that item only and removes no sibling — and the batch as a
whole returns success whenever directory enumeration succeeded, regardless
of individual outcomes. -/
theorem claim8_batch_isolation {ε : Type} (entries : List WalkEntry)
    (encRes decRes : WalkEntry → Except ε Unit) (ext : String)
    (hok : ∀ e ∈ entries, e.walkErr = false) :
    (encryptDirectory entries encRes).1 = .ok () ∧
    (encryptDirectory entries encRes).2 =
      (entries.filter encSelect).map (fun f => (f, encRes f)) ∧
    (decryptDirectory ext entries decRes).1 = .ok () ∧
    (decryptDirectory ext entries decRes).2 =
      (entries.filter (decSelect ext)).map (fun f => (f, decRes f)) := by
  refine ⟨?_, ?_, ?_, ?_⟩ <;>
    simp [encryptDirectory, decryptDirectory, walkOk_of_no_err entries hok,
      spawnedFiles_of_no_err _ entries hok]

/-- Witness for C8 at a concrete input: with three image files where the
worker fails on `b.png` only, the batch still returns success, `a.png` and
`c.png` are still processed, and the failure is recorded against `b.png`
alone. -/
theorem claim8_witness :
    (encryptDirectory demoEntries
        (fun e => if e.name = "b.png" then .error () else .ok ())).1 =
      .ok () ∧
    (encryptDirectory demoEntries
        (fun e => if e.name = "b.png" then .error () else .ok ())).2 =
      [(⟨"a.png", false, true, false⟩, .ok ()),
       (⟨"b.png", false, true, false⟩, .error ()),
       (⟨"c.png", false, true, false⟩, .ok ())] :=
  have h := claim8_batch_isolation demoEntries
    (fun e => if e.name = "b.png" then .error () else .ok ())
    (fun e => if e.name = "b.png" then .error () else .ok ()) ".enc"
    (by decide)
  ⟨h.1, h.2.1.trans (by rfl)⟩

/-- Claim C9 (counterexample): on a concrete directory of three discovered
image files, the encrypt batch spawns three concurrently in-flight workers —
exactly one unbounded concurrent task per discovered file, with no fixed or
configurable cap (the spawn count always equals the discovered-file count,
so no bound independent of the input exists). -/
theorem claim9_one_worker_per_file :
    spawnedWorkerCount encSelect demoEntries = 3 ∧
    (demoEntries.filter encSelect).length = 3 := by
  decide

/-- Claim C9 (amended): a directory batch run (encrypt or decrypt) spawns
exactly one concurrent worker per discovered qualifying file and joins none
of them before the walk ends — the in-flight worker count is bounded only by
the number of discovered files (unbounded fan-out), not by any fixed or
configurable cap. -/
theorem claim9_amended_unbounded_fanout (entries : List WalkEntry)
    (ext : String) (hok : ∀ e ∈ entries, e.walkErr = false) :
    spawnedWorkerCount encSelect entries =
      (entries.filter encSelect).length ∧
    spawnedWorkerCount (decSelect ext) entries =
      (entries.filter (decSelect ext)).length := by
  rw [spawnedWorkerCount, spawnedWorkerCount,
    spawnedFiles_of_no_err _ entries hok, spawnedFiles_of_no_err _ entries hok]
  exact ⟨rfl, rfl⟩

/-- Witness for the amended C9 at a concrete input: a two-file directory
spawns one worker per qualifying file under both batch modes. -/
theorem claim9_amended_witness :
    spawnedWorkerCount encSelect
        [⟨"x.png", false, true, false⟩, ⟨"y.enc", false, false, false⟩] =
      ([⟨"x.png", false, true, false⟩,
        ⟨"y.enc", false, false, false⟩].filter encSelect).length ∧
    spawnedWorkerCount (decSelect ".enc")
        [⟨"x.png", false, true, false⟩, ⟨"y.enc", false, false, false⟩] =
      ([⟨"x.png", false, true, false⟩,
        ⟨"y.enc", false, false, false⟩].filter (decSelect ".enc")).length :=
  claim9_amended_unbounded_fanout
    [⟨"x.png", false, true, false⟩, ⟨"y.enc", false, false, false⟩]
    ".enc" (by decide)

end PixelLock
